import Mathlib

/-!
Verification of the Bias Lab backend's analysis orchestration and
clustering logic, shallowly embedded from the Python sources
(`app/routes/analyze.py`, `app/routes/narrative.py`,
`app/services/highlight_extractor.py`, `app/services/llm.py`,
`app/services/sourcing.py`).

Modelling conventions:
* Python `str` values that are sliced or scanned are modelled as `List Char`
  (Python slices by code point, as does `List Char`); values only compared
  for equality (dimension names, band names, dict keys) stay `String`.
* Python numbers (ints and floats) are modelled as `ℤ` / `ℚ` with exact
  arithmetic; `round` is modelled as round-half-to-even (`pyRound`),
  which is Python 3 `round` semantics.
* Python dicts used as score maps are association lists
  (`List (String × ℚ)`), with `dictGet` modelling `d.get(k, 0)` and
  `List.isEmpty` modelling the `not scores` truthiness test.
-/

namespace BiasLab

/-- Lowercase a character list, modelling Python `str.lower()` (ASCII range,
which covers every string these routines compare). -/
def lowerL (s : List Char) : List Char := s.map Char.toLower

/-- Python `str.strip()`: drop leading and trailing whitespace. -/
def strip (s : List Char) : List Char :=
  ((s.dropWhile Char.isWhitespace).reverse.dropWhile Char.isWhitespace).reverse

/-- Exact prefix test on character lists. -/
def isPre : List Char → List Char → Bool
  | [], _ => true
  | _ :: _, [] => false
  | a :: as, b :: bs => a == b && isPre as bs

/-- Substring containment (`pat in hay` for Python strings). -/
def containsL (pat : List Char) : List Char → Bool
  | [] => pat.isEmpty
  | c :: rest => isPre pat (c :: rest) || containsL pat rest

/-- Suffix test (`s.endswith(suf)`). -/
def endsWithL (suf s : List Char) : Bool := isPre suf.reverse s.reverse

/-- Python `hay.find(pat)`: index of the first occurrence, `none` for -1. -/
def indexOfSub (pat : List Char) : List Char → Option Nat
  | [] => if pat.isEmpty then some 0 else none
  | c :: rest =>
      if isPre pat (c :: rest) then some 0
      else (indexOfSub pat rest).map (· + 1)

/-- Python `hay.count(pat)`: non-overlapping occurrence count, scanning left
to right (fuel-driven recursion; fuel `hay.length + 1` suffices). -/
def countOccsGo (pat : List Char) : Nat → List Char → Nat
  | 0, _ => 0
  | _ + 1, [] => 0
  | fuel + 1, c :: rest =>
      if isPre pat (c :: rest) then
        1 + countOccsGo pat fuel ((c :: rest).drop pat.length)
      else countOccsGo pat fuel rest

def countOccs (pat hay : List Char) : Nat := countOccsGo pat (hay.length + 1) hay

/-- Python slice `text[a:b]` for `0 ≤ a ≤ b` (the only shape used here). -/
def slice (s : List Char) (a b : Nat) : List Char := (s.drop a).take (b - a)

/-- Python `s.split()`: whitespace-separated words, empties dropped. -/
def wordsGo : List Char → List Char → List (List Char)
  | [], [] => []
  | [], w => [w.reverse]
  | c :: rest, w =>
      if c.isWhitespace then
        if w.isEmpty then wordsGo rest [] else w.reverse :: wordsGo rest []
      else wordsGo rest (c :: w)

def words (s : List Char) : List (List Char) := wordsGo s []

/-- Does the accumulated (reversed) sentence end in `.`, `!` or `?` —
the lookbehind of `re.split(r"(?<=[.!?])\s+", s)`. -/
def punctLast : List Char → Bool
  | [] => false
  | p :: _ => p == '.' || p == '!' || p == '?'

/-- Sentence splitter modelling `re.split(r"(?<=[.!?])\s+", s)`: split at each
maximal whitespace run immediately preceded by `.`/`!`/`?`. Fuel-driven;
fuel `s.length + 1` suffices since every step consumes a character. -/
def sentGo : Nat → List Char → List Char → List (List Char)
  | 0, _, acc => [acc.reverse]
  | _ + 1, [], acc => [acc.reverse]
  | fuel + 1, c :: rest, acc =>
      if c.isWhitespace && punctLast acc then
        acc.reverse :: sentGo fuel (rest.dropWhile Char.isWhitespace) []
      else sentGo fuel rest (c :: acc)

def sentSplit (s : List Char) : List (List Char) := sentGo (s.length + 1) s []

/-- Python `" ".join(xs)`. -/
def joinSpace : List (List Char) → List Char
  | [] => []
  | [x] => x
  | x :: y :: rest => x ++ [' '] ++ joinSpace (y :: rest)

/-! ## Bias index (`analyze.py` lines 45–64) -/

/-- Python `scores.get(k, 0)` on the score dict. -/
def dictGet (d : List (String × ℚ)) (k : String) : ℚ := (d.lookup k).getD 0

/-- Python 3 `round`: round half to even. -/
def pyRound (q : ℚ) : ℤ :=
  let f : ℤ := ⌊q⌋
  let r : ℚ := q - (f : ℚ)
  if r < 1/2 then f
  else if 1/2 < r then f + 1
  else if f % 2 = 0 then f else f + 1

theorem pyRound_intCast (n : ℤ) : pyRound (n : ℚ) = n := by simp [pyRound]

theorem pyRound_natCast (n : ℕ) : pyRound (n : ℚ) = n := by
  rw [show ((n : ℚ)) = ((n : ℤ) : ℚ) by push_cast; ring, pyRound_intCast]

theorem pyRound_ofNat (n : ℕ) [n.AtLeastTwo] :
    pyRound (no_index (OfNat.ofNat n) : ℚ) = OfNat.ofNat n := by
  rw [← Nat.cast_ofNat, pyRound_natCast]
  simp

/-- `_bias_band` (`analyze.py` 45–52). -/
def bias_band (v : ℤ) : String :=
  if v < 30 then "low"
  else if v < 50 then "medium"
  else if v < 70 then "high"
  else "extremely_high"

/-- `_bias_index_from_scores` (`analyze.py` 55–64): the empty-dict guard,
then the weighted sum, rounded and clamped to `[0, 100]`. -/
def bias_index_from_scores (d : List (String × ℚ)) : ℤ :=
  if d.isEmpty then 0
  else
    let emo := dictGet d "emotional_tone"
    let frame := dictGet d "framing_choices"
    let fact_inv := 100 - dictGet d "factual_grounding"
    let src_inv := 100 - dictGet d "source_transparency"
    let ideo := dictGet d "ideological_stance"
    let val := (0.25 : ℚ) * frame + 0.25 * fact_inv + 0.20 * src_inv
        + 0.15 * emo + 0.15 * ideo
    max 0 (min 100 (pyRound val))

/-- The five-dimension score dict with every value 0. -/
def allZeroScores : List (String × ℚ) :=
  [("ideological_stance", 0), ("factual_grounding", 0), ("framing_choices", 0),
   ("emotional_tone", 0), ("source_transparency", 0)]

/-- Score dict with the given five values, in the order the backend emits. -/
def mkScores (ideo fact frame emo src : ℚ) : List (String × ℚ) :=
  [("ideological_stance", ideo), ("factual_grounding", fact),
   ("framing_choices", frame), ("emotional_tone", emo),
   ("source_transparency", src)]

/-! ## Highlight records and the merge pipeline (`analyze.py` 129–190) -/

/-- A raw model-produced highlight: one entry of `score_res["highlights"]`.
The `h.get(k, h.get("data", {}).get(k, default)) or default` resolution of
`_norm` (lines 134–136, 140, 144–145) is applied up front, so each field
holds exactly the value `_norm` goes on to use. -/
structure RawH where
  dimension : String
  text : List Char
  start : ℤ
  endp : ℤ
  reason : List Char
  confidence : ℚ
deriving DecidableEq

/-- A merged/normalized highlight: the dict shape appended to `highlights`
(lines 139–146, 163–170, 180–187). `endp` models the `end` key. -/
structure MHL where
  dimension : String
  text : List Char
  start : ℤ
  endp : ℤ
  reason : List Char
  confidence : ℚ
deriving DecidableEq

/-- Pattern-extractor highlight payload (`highlight_extractor.py` 28–37). -/
structure PHData where
  text : List Char
  start : ℤ
  endp : ℤ
  reason : List Char
  confidence : ℚ
deriving DecidableEq

/-- Pattern-extractor highlight (`{"dimension": ..., "data": {...}}`). -/
structure PH where
  dimension : String
  data : PHData
deriving DecidableEq

/-- `_norm` (`analyze.py` 133–146): strip the text, zero out span when
`end < start` or wider than 2000, keep everything else. -/
def norm (h : RawH) : MHL :=
  if h.endp < h.start ∨ h.endp - h.start > 2000 then
    ⟨h.dimension, strip h.text, 0, 0, strip h.reason, h.confidence⟩
  else
    ⟨h.dimension, strip h.text, h.start, h.endp, strip h.reason, h.confidence⟩

/-- The prompt-leakage marker filtered at line 151. -/
def marker : List Char := "return only json".toList

/-- Lines 148–152: normalize each raw model highlight, keep it only when its
stripped text is non-empty and does not contain the leakage marker. -/
def mergeStep1 (raws : List RawH) : List MHL :=
  (raws.map norm).filter
    (fun n => !n.text.isEmpty && !containsL marker (lowerL n.text))

/-- One iteration of the pattern-merge loop (lines 157–171): skip when the
text is empty or the `(dimension, text)` pair is already seen, else append.
`seen` is exactly the pair set of the accumulated list, since every append
also adds the entry's pair to `seen`. -/
def mergeStepF (acc : List MHL) (h : PH) : List MHL :=
  if h.data.text.isEmpty
      || acc.any (fun m => m.dimension == h.dimension && m.text == h.data.text)
  then acc
  else acc ++ [⟨h.dimension, h.data.text, h.data.start, h.data.endp,
    strip h.data.reason, h.data.confidence⟩]

/-- Lines 154–171: fold the pattern-extractor highlights into the list. -/
def mergePattern (acc0 : List MHL) (phs : List PH) : List MHL :=
  phs.foldl mergeStepF acc0

/-- Two merged highlights are distinct for dedup purposes when they differ
in dimension or text. -/
def pairNe (a b : MHL) : Prop := ¬(a.dimension = b.dimension ∧ a.text = b.text)

/-- Sentences of the summary with at least 8 words (line 179's filter). -/
def qualSents (summary : List Char) : List (List Char) :=
  (sentSplit (strip summary)).filter (fun s => 8 ≤ (words s).length)

/-- Lines 175–187: synthesize up to 2 highlights from the first two
qualifying summary sentences. -/
def synth (summary : List Char) : List MHL :=
  ((qualSents summary).take 2).enum.map fun p =>
    ⟨if p.1 = 0 then "framing_choices" else "emotional_tone",
      p.2.take 240, 0, 0,
      "Representative sentence extracted as fallback.".toList, 0.6⟩

/-- The full highlight assembly of `analyze` (lines 148–190): model
highlights, pattern merge, synthesized fallback when still empty and a
summary exists, then the cap at 20. -/
def mergeAll (raws : List RawH) (phs : List PH) (summary : List Char) :
    List MHL :=
  let hs1 := mergeStep1 raws
  let hs2 := mergePattern hs1 phs
  let hs3 := if hs2.isEmpty && !summary.isEmpty then hs2 ++ synth summary
    else hs2
  hs3.take 20

/-- Dummy highlight used as the `getD` default in closed statements. -/
def dMHL : MHL := ⟨"", [], 0, 0, [], 0⟩

/-! ## Pattern extractor (`highlight_extractor.py`)

Each regex of `BIAS_PATTERNS` is an alternation of fixed phrases wrapped in
word boundaries (`\b...\b`), matched case-insensitively. A pattern is
embedded as its ordered list of alternative literals (optional groups
expanded greedy-first, exactly the order a backtracking engine tries them),
and `re.finditer` as a left-to-right scan taking the first alternative that
matches at a position with both boundaries satisfied, then resuming after
the match. -/

/-- Python regex `\w` for the ASCII range: letters, digits, underscore. -/
def wordChar (c : Char) : Bool := c.isAlphanum || c == '_'

/-- Is the character at index `i` a word character (out of range: no)? -/
def isWordAt (text : List Char) (i : Nat) : Bool :=
  match text.get? i with
  | some c => wordChar c
  | none => false

/-- Word boundary `\b` at position `pos`. -/
def boundaryAt (text : List Char) (pos : Nat) : Bool :=
  (if pos = 0 then false else isWordAt text (pos - 1)) != isWordAt text pos

/-- Case-insensitive literal prefix test. -/
def litPre : List Char → List Char → Bool
  | [], _ => true
  | _ :: _, [] => false
  | a :: as, b :: bs => a.toLower == b.toLower && litPre as bs

/-- Try the alternatives in order at `pos`; the first whose literal matches
and whose trailing `\b` holds wins (backtracking alternation order). -/
def altsMatch (alts : List (List Char)) (text : List Char) (pos : Nat) :
    Option Nat :=
  match alts with
  | [] => none
  | a :: rest =>
      if litPre a (text.drop pos) && boundaryAt text (pos + a.length)
      then some a.length
      else altsMatch rest text pos

/-- Match the whole pattern `\b(alt1|alt2|...)\b` at `pos`. -/
def patMatch (alts : List (List Char)) (text : List Char) (pos : Nat) :
    Option Nat :=
  if boundaryAt text pos then altsMatch alts text pos else none

/-- The `re.finditer` scan: try each position left to right, emit the span
of each match, resume after it. Fuel `text.length + 1` suffices since every
step consumes at least one character. -/
def findGo (alts : List (List Char)) (text : List Char) :
    Nat → Nat → List (Nat × Nat)
  | 0, _ => []
  | fuel + 1, pos =>
      if pos < text.length then
        match patMatch alts text pos with
        | some n => (pos, pos + n) :: findGo alts text fuel (pos + max n 1)
        | none => findGo alts text fuel (pos + 1)
      else []

def findIter (alts : List (List Char)) (text : List Char) : List (Nat × Nat) :=
  findGo alts text (text.length + 1) 0

/-- One entry of `BIAS_PATTERNS`: dimension, alternatives, reason. -/
structure PatternDef where
  dimension : String
  alts : List (List Char)
  reason : List Char

/-- `BIAS_PATTERNS` (`highlight_extractor.py` 5–19), alternations expanded
to ordered literal lists. -/
def BIAS_PATTERNS : List PatternDef :=
  [⟨"framing_choices",
      ["critics say".toList, "critics argue".toList, "critics claim".toList],
      "Uses the 'critics say' construction.".toList⟩,
   ⟨"framing_choices",
      ["allegedly".toList, "reportedly".toList, "is said to".toList],
      "Distance / hedging phrasing.".toList⟩,
   ⟨"framing_choices",
      ["dubbed".toList, "branded".toList, "labeled".toList],
      "Loaded labeling indicates framing.".toList⟩,
   ⟨"emotional_tone",
      ["shocking".toList, "outrage".toList, "furious".toList,
        "slammed".toList, "disgrace".toList, "scandal".toList],
      "Loaded / emotional adjective.".toList⟩,
   ⟨"emotional_tone",
      ["spiralling out of control".toList, "spiral out of control".toList,
        "in chaos".toList, "in turmoil".toList],
      "Catastrophizing language.".toList⟩,
   ⟨"source_transparency",
      ["anonymous sources".toList, "anonymous source".toList],
      "Opaque attribution to anonymous sources.".toList⟩,
   ⟨"source_transparency",
      ["according to sources".toList],
      "Vague attribution ('sources').".toList⟩,
   ⟨"source_transparency",
      ["people familiar with the matter".toList],
      "Non-specific sourcing.".toList⟩,
   ⟨"ideological_stance",
      ["leftwing".toList, "rightwing".toList,
        "far-right".toList, "far right".toList, "farright".toList,
        "far-left".toList, "far left".toList, "farleft".toList],
      "Explicit ideological labeling.".toList⟩]

/-- `extract_highlights` (`highlight_extractor.py` 21–38): for each pattern
in order, all its matches in scan order, with the matched slice as text and
confidence 0.8. Empty input yields the empty list. -/
def extract_highlights (text : List Char) : List PH :=
  BIAS_PATTERNS.flatMap fun p =>
    (findIter p.alts text).map fun se =>
      ⟨p.dimension, ⟨slice text se.1 se.2, (se.1 : ℤ), (se.2 : ℤ),
        p.reason, 0.8⟩⟩

/-! ## Heuristic fallbacks (`llm.py`) -/

/-- A scoring result: the `{"scores": ..., "highlights": ...}` dict. -/
structure ScoreRes where
  scores : List (String × ℚ)
  highlights : List RawH

/-- `_rule_based` (`llm.py` 72–105): keyword-count scores plus up to 3
first-occurrence highlights for the vague-attribution phrases. -/
def rule_based (text : List Char) : ScoreRes :=
  let lower := lowerL text
  let emotional : ℚ := countOccs "outrage".toList lower
    + countOccs "shocking".toList lower + countOccs "furious".toList lower
    + countOccs "disaster".toList lower
  let vague : ℚ := countOccs "critics say".toList lower
    + countOccs "some say".toList lower + countOccs "sources say".toList lower
  let stance : ℚ := 50
  let factual : ℚ := max 20 (80 - vague * 10)
  let framing : ℚ := min 90 (40 + vague * 15)
  let emotion : ℚ := min 95 (30 + emotional * 20)
  let source : ℚ := max 20 (70 - vague * 10)
  let hls : List RawH :=
    ([("critics say".toList), ("some say".toList), ("sources say".toList)].filterMap
      fun phrase =>
        match indexOfSub phrase lower with
        | some i => some ⟨"framing_choices", slice text i (i + phrase.length),
            (i : ℤ), ((i + phrase.length : Nat) : ℤ),
            "vague attribution".toList, 0.6⟩
        | none => none).take 3
  ⟨[("ideological_stance", stance), ("factual_grounding", factual),
    ("framing_choices", framing), ("emotional_tone", emotion),
    ("source_transparency", source)], hls⟩

/-- `llm_summary`'s no-backend fallback (`llm.py` 177–179): first 12
sentences joined by spaces, capped at 2500 characters. -/
def llm_summary_fb (text : List Char) : List Char :=
  (joinSpace ((sentSplit (strip text)).take 12)).take 2500

/-- An extracted claim `{text, rationale, confidence}`. -/
structure ClaimRec where
  text : List Char
  rationale : Option (List Char)
  confidence : Option ℚ

/-- `extract_claims`' no-backend fallback (`llm.py` 230–233): up to 4
sentences longer than 60 characters, as claims with confidence 0.4. -/
def extract_claims_fb (text : List Char) : List ClaimRec :=
  (((sentSplit (strip text)).filter (fun s => 60 < s.length)).take 4).map
    fun s => ⟨s, some "salient sentence".toList, some 0.4⟩

/-! ## Source ranking (`sourcing.py`) -/

/-- A ranked source `{title, url, score, published}`. -/
structure Source where
  title : List Char
  url : List Char
  score : ℚ
  published : Option (List Char)

/-- A raw search result, each field possibly missing/None (`r.get(...)`). -/
structure RawResult where
  title : Option (List Char)
  url : Option (List Char)
  score : Option ℚ
  published : Option (List Char)

/-- Scheme prefix removal for `urlparse`: drop a leading
`<alpha><alnum+.->*:`, if present, of a URL already lowercased. -/
def dropScheme (u : List Char) : List Char :=
  match u with
  | c :: _ =>
      if c.isAlpha then
        let schemeLen := (u.takeWhile fun ch =>
          ch.isAlphanum || ch == '+' || ch == '-' || ch == '.').length
        if u.get? schemeLen = some ':' then u.drop (schemeLen + 1) else u
      else u
  | [] => u

/-- `urlparse(u).netloc` for the URL shapes this service sees: the segment
after `//` up to `/`, `?` or `#`; empty when the URL has no `//` part. -/
def netloc (u : List Char) : List Char :=
  let r := dropScheme u
  if isPre "//".toList r then
    (r.drop 2).takeWhile fun c => !(c == '/' || c == '?' || c == '#')
  else []

/-- Host of an item, as `_unique_by_domain` computes it (line 36):
`urlparse((it.get("url") or "").lower()).netloc`. -/
def hostOf (s : Source) : List Char := netloc (lowerL s.url)

/-- `_unique_by_domain` (`sourcing.py` 32–41): keep the first item per
non-empty host. -/
def uniqGo : List Source → List (List Char) → List Source
  | [], _ => []
  | it :: rest, seen =>
      if hostOf it == ([] : List Char) || seen.contains (hostOf it) then
        uniqGo rest seen
      else it :: uniqGo rest (hostOf it :: seen)

def unique_by_domain (items : List Source) : List Source := uniqGo items []

/-- `_bonus` (`sourcing.py` 9–29): additive domain/title heuristics. -/
def bonus (url title : List Char) : ℚ :=
  let u := lowerL url
  let t := lowerL title
  let host := netloc u
  (if endsWithL ".gov".toList host || endsWithL ".mil".toList host
      || endsWithL ".edu".toList host then 0.25 else 0)
  + (if endsWithL ".pdf".toList u || containsL "filetype:pdf".toList u
      then 0.15 else 0)
  + (if containsL "press".toList t && containsL "release".toList t
      then 0.1 else 0)
  + (if containsL "official".toList t || containsL "statement".toList t
      then 0.08 else 0)
  - (if ["wikipedia.org", "reddit.com", "x.com", "twitter.com",
        "facebook.com", "medium.com"].any
        (fun bad => endsWithL bad.toList host) then 0.25 else 0)

/-- Item construction from a raw result (`sourcing.py` 73–86): default the
missing fields, add the bonus, clamp the score to `[0,1]`. -/
def mkItem (r : RawResult) : Source :=
  let url := r.url.getD []
  let title := match r.title with
    | some t => if t.isEmpty then url else t
    | none => url
  let base := r.score.getD 0
  ⟨title, url, max 0 (min 1 (base + bonus url title)), r.published⟩

/-- Stable insertion into a score-descending list: `x` goes before the
first element whose score is not larger, so earlier equal-scored items stay
first — the order Python's stable `sort(key=score, reverse=True)` yields. -/
def insertDesc (x : Source) : List Source → List Source
  | [] => [x]
  | y :: ys => if y.score ≤ x.score then x :: y :: ys else y :: insertDesc x ys

/-- Stable sort by score descending (`items.sort(key=..., reverse=True)`). -/
def sortDesc : List Source → List Source
  | [] => []
  | x :: xs => insertDesc x (sortDesc xs)

/-- `find_primary_sources` (`sourcing.py` 44–95) given the raw search
results: `[]` when Tavily is not configured; otherwise build items, sort by
score descending, dedupe by domain, truncate to `max 1 k`. (The network
call itself and its error path are the caller-supplied `raw`/`cfg`.) -/
def find_primary_sources (cfg : Bool) (raw : List RawResult) (k : Nat) :
    List Source :=
  if !cfg then []
  else (unique_by_domain (sortDesc (raw.map mkItem))).take (max 1 k)

/-! ## Claim enrichment (`analyze.py` 193–211) -/

/-- An enriched claim as assembled at lines 206–211. -/
structure EClaim where
  text : List Char
  rationale : Option (List Char)
  confidence : Option ℚ
  sources : List Source

/-- The per-claim source lookup at lines 199–205: a timeout yields `[]`, a
search-client failure (`search q = none`) yields `[]` via the except-path
of `find_primary_sources`, otherwise rank the raw results with `k = 3`. -/
def claimSources (cfg : Bool) (search : List Char → Option (List RawResult))
    (timeoutOn : List Char → Bool) (q : List Char) : List Source :=
  if timeoutOn q then []
  else match search q with
    | none => []
    | some raw => find_primary_sources cfg raw 3

/-- The enrichment loop (lines 195–211): first 8 claims, skip empty
stripped text, attach the top 2 looked-up sources. -/
def enrich (claims : List ClaimRec) (srcs : List Char → List Source) :
    List EClaim :=
  (claims.take 8).filterMap fun c =>
    if (strip c.text).isEmpty then none
    else some ⟨strip c.text, c.rationale, c.confidence,
      (srcs (strip c.text)).take 2⟩

/-! ## Orchestration (`analyze.py` 102–127, 213–260) -/

/-- The remote/fallback backends as call-indexed oracles: `scoreCall i` is
the result of the `i`-th invocation of `llm_score` on the article text
(0-based), and likewise for summary and claims. -/
structure Backend where
  scoreCall : Nat → ScoreRes
  summaryCall : Nat → List Char
  claimsCall : Nat → List ClaimRec

/-- Outcome of the concurrent `asyncio.gather` of the score / summary /
claims tasks (lines 109–122): either all complete, or the 25-unit
`wait_for` deadline fires and the gather raises `TimeoutError`. -/
inductive GatherOutcome
  | ok
  | timedOut

/-- The gather itself: on `ok`, the three first invocations (claims only
when `full`); on timeout, the exception. -/
def runGather (b : Backend) (full : Bool) (g : GatherOutcome) :
    Except String (ScoreRes × List Char × List ClaimRec) :=
  match g with
  | .ok => .ok (b.scoreCall 0, b.summaryCall 0,
      if full then b.claimsCall 0 else [])
  | .timedOut => .error "TimeoutError"

/-- Lines 118–127: run the gather; on `TimeoutError` re-run score and
summary sequentially (their second invocations) with claims degraded to
`[]`. Also returns how many times (score, summary) were invoked in total. -/
def gatherWithFallback (b : Backend) (full : Bool) (g : GatherOutcome) :
    (ScoreRes × List Char × List ClaimRec) × (Nat × Nat) :=
  match runGather b full g with
  | .ok r => (r, (1, 1))
  | .error _ => ((b.scoreCall 1, b.summaryCall 1, []), (2, 2))

/-- The assembled report (steps 5–8 of `analyze`). -/
structure Report where
  scores : List (String × ℚ)
  summary : List Char
  highlights : List MHL
  overallValue : ℤ
  overallBand : String
  claims : List EClaim

/-- `analyze`'s post-fetch pipeline: gather with fallback, merge
highlights, enrich claims when `full` and any were extracted, compute the
overall bias index and band. -/
def analyzePipeline (b : Backend) (full : Bool) (g : GatherOutcome)
    (text : List Char) (srcs : List Char → List Source) : Report :=
  let res := (gatherWithFallback b full g).1
  let sr := res.1
  let summary := res.2.1
  let claims := res.2.2
  let hs := mergeAll sr.highlights (extract_highlights text) summary
  let enriched := if full && !claims.isEmpty then enrich claims srcs else []
  let bi := bias_index_from_scores sr.scores
  ⟨sr.scores, summary, hs, bi, bias_band bi, enriched⟩

/-- The no-remote-backend instantiation: every `llm_score` call falls back
to `_rule_based`, every `llm_summary` call to the sentence-join fallback,
every `extract_claims` call to the salient-sentence fallback. -/
def noBackend (text : List Char) : Backend :=
  ⟨fun _ => rule_based text, fun _ => llm_summary_fb text,
    fun _ => extract_claims_fb text⟩

/-! ## Narrative clustering (`narrative.py` 81–113)

Python `set[str]` values are modelled as duplicate-free `List (List Char)`
kept in first-occurrence order; `len(a & b)` and `len(a | b)` become
`interCard` / `unionL` on such lists. -/

/-- ASCII alphanumeric, the character class `[A-Za-z0-9]` (applied to the
already-lowercased string). -/
def asciiAlnum (c : Char) : Bool :=
  (('a' ≤ c && c ≤ 'z') || ('A' ≤ c && c ≤ 'Z') || ('0' ≤ c && c ≤ '9'))

/-- `re.findall(r"[A-Za-z0-9]+", s)`: maximal alphanumeric runs. -/
def runsGo : List Char → List Char → List (List Char)
  | [], [] => []
  | [], w => [w.reverse]
  | c :: rest, w =>
      if asciiAlnum c then runsGo rest (c :: w)
      else if w.isEmpty then runsGo rest []
      else w.reverse :: runsGo rest []

def alnumRuns (s : List Char) : List (List Char) := runsGo s []

/-- The stop-word set of `_tokens` (line 84). -/
def STOPWORDS : List (List Char) :=
  ["the", "a", "an", "and", "or", "to", "of", "for", "in", "on", "with",
    "at", "by", "from", "about"].map String.toList

/-- Set-comprehension dedup, keeping first occurrences. -/
def dedupKeep (xs : List (List Char)) : List (List Char) :=
  xs.foldl (fun acc x => if acc.contains x then acc else acc ++ [x]) []

/-- `_tokens` (`narrative.py` 81–85): lowercase alphanumeric runs, minus
stop words, length > 2, as a set. -/
def tokensOf (s : List Char) : List (List Char) :=
  dedupKeep ((alnumRuns (lowerL s)).filter
    (fun t => !STOPWORDS.contains t && 2 < t.length))

/-- `len(a & b)` for duplicate-free lists. -/
def interCard (a b : List (List Char)) : Nat :=
  (a.filter (fun x => b.contains x)).length

/-- `a | b` for duplicate-free lists (left-biased order). -/
def unionL (a b : List (List Char)) : List (List Char) :=
  a ++ b.filter (fun x => !a.contains x)

/-- `_sim` (`narrative.py` 87–90): Jaccard similarity, 0 when either side
is empty. -/
def sim (a b : List (List Char)) : ℚ :=
  if a.isEmpty || b.isEmpty then 0
  else (interCard a b : ℚ) / ((unionL a b).length : ℚ)

/-- A cluster bucket `{tokens, ids}` (line 113). -/
structure Bucket where
  tokens : List (List Char)
  ids : List ℤ

/-- The inner placement loop (lines 105–113): first bucket with similarity
at least the threshold absorbs the article (tokens unioned, id appended);
otherwise a fresh bucket is appended. -/
def place (t : List (List Char)) (i : ℤ) (threshold : ℚ) :
    List Bucket → List Bucket
  | [] => [⟨t, [i]⟩]
  | b :: rest =>
      if sim t b.tokens ≥ threshold then
        ⟨unionL b.tokens t, b.ids ++ [i]⟩ :: rest
      else b :: place t i threshold rest

/-- The clustering fold of `cluster_narratives` (lines 102–113) over
`(id, key)` pairs in processing order (most recent first), where `key` is
`a.title or a.url or f"article-{a.id}"` already resolved. The narrative
labelling and persistence below line 115 do not affect membership. -/
def clusterBuckets (arts : List (ℤ × List Char)) (threshold : ℚ) :
    List Bucket :=
  arts.foldl (fun bs a => place (tokensOf a.2) a.1 threshold bs) []

/-- The three spec articles, in processing order 3, 2, 1. -/
def cexArts : List (ℤ × List Char) :=
  [(3, "Local bakery wins award".toList),
   (2, "Senate approves climate legislation".toList),
   (1, "Senate passes climate bill".toList)]

/-! ## Concrete inputs used in closed statements -/

/-- A model highlight list with a duplicated `(dimension, text)` pair. -/
def cex4raws : List RawH :=
  [⟨"framing_choices", "dup text".toList, 0, 3, [], 0.7⟩,
   ⟨"framing_choices", "dup text".toList, 0, 3, [], 0.7⟩]

/-- A pattern list with a whitespace-only text and a marker-bearing text. -/
def cex4phs : List PH :=
  [⟨"emotional_tone", ⟨"   ".toList, 0, 3, [], 0.8⟩⟩,
   ⟨"source_transparency", ⟨"RETURN ONLY JSON now".toList, 0, 3, [], 0.8⟩⟩]

/-- Witness inputs for the amended merge statement. -/
def w4raws : List RawH := [⟨"framing_choices", "spin here".toList, 0, 9, [], 0.7⟩]

def w4phs : List PH :=
  [⟨"framing_choices", ⟨"spin here".toList, 0, 9, [], 0.8⟩⟩,
   ⟨"emotional_tone", ⟨"shocking".toList, 3, 11, [], 0.8⟩⟩]

/-- The normalized form of the single `w4raws` entry. -/
def w4m : MHL := ⟨"framing_choices", "spin here".toList, 0, 9, [], 0.7⟩

/-- A two-sentence summary whose sentences have 8 words each. -/
def w6sum : List Char :=
  "Alpha beta gamma delta epsilon zeta eta theta. Iota kappa lambda mu nu xi omicron pi.".toList

/-- Sources with different network domains, for statements about the
claim-enrichment invariants. -/
def hostNe (a b : Source) : Prop := hostOf a ≠ hostOf b

/-- A single concrete claim for the enrichment witness. -/
def w7claim : ClaimRec := ⟨"The sky is blue today.".toList, none, none⟩

/-- A search stub returning no raw results. -/
def w7search : List Char → Option (List RawResult) := fun _ => some []

/-- A deadline stub that never fires. -/
def w7timeout : List Char → Bool := fun _ => false

/-- The end-to-end spec text for the no-backend run. -/
def c8text : List Char := "Critics say the policy is shocking.".toList

/-- Extractor witness input and its first (and only) produced highlight. -/
def w10text : List Char := "shocking now".toList

def w10h : PH :=
  ⟨"emotional_tone", ⟨"shocking".toList, 0, 8,
    "Loaded / emotional adjective.".toList, 0.8⟩⟩

end BiasLab

namespace BiasLab

/-- Claim C1, counterexample: the all-zero five-dimension score set does NOT
yield value 0 and band "low" — the inverted factual/source terms make the
index `round(0.25*100 + 0.20*100) = 45`, band "medium". (The empty score
set does yield 0/"low", per the amended theorem.) -/
theorem C1_allzero_cex :
    bias_index_from_scores allZeroScores = 45 ∧
    bias_band (bias_index_from_scores allZeroScores) = "medium" ∧
    ¬(bias_index_from_scores allZeroScores = 0 ∧
      bias_band (bias_index_from_scores allZeroScores) = "low") := by
  have h45 : bias_index_from_scores allZeroScores = 45 := by
    simp +decide [bias_index_from_scores, dictGet, allZeroScores, List.lookup]
    norm_num [pyRound_ofNat]
  refine ⟨h45, ?_, ?_⟩
  · rw [h45]; decide
  · intro h
    rw [h45] at h
    exact absurd h.1 (by decide)

/-- Claim C1 (amended): the empty score set yields value 0 and band "low";
the all-zero five-dimension score set yields value 45 and band "medium". -/
theorem C1_empty_and_allzero :
    bias_index_from_scores [] = 0 ∧
    bias_band (bias_index_from_scores []) = "low" ∧
    bias_index_from_scores allZeroScores = 45 ∧
    bias_band (bias_index_from_scores allZeroScores) = "medium" := by
  have h45 : bias_index_from_scores allZeroScores = 45 := by
    simp +decide [bias_index_from_scores, dictGet, allZeroScores, List.lookup]
    norm_num [pyRound_ofNat]
  exact ⟨by rfl, by rfl, h45, by rw [h45]; decide⟩

/-- Claim C3: for in-range dimension scores the bias index is in `[0,100]`
and equals the claimed weighted formula, rounded then clamped; the band
thresholds behave as stated at the boundary values 29/30/49/50/69/70. -/
theorem C3_bias_index_value_and_bands
    (ideo fact frame emo src : ℚ)
    (hi : 0 ≤ ideo ∧ ideo ≤ 100) (hfa : 0 ≤ fact ∧ fact ≤ 100)
    (hfr : 0 ≤ frame ∧ frame ≤ 100) (he : 0 ≤ emo ∧ emo ≤ 100)
    (hs : 0 ≤ src ∧ src ≤ 100) :
    (0 ≤ bias_index_from_scores (mkScores ideo fact frame emo src) ∧
      bias_index_from_scores (mkScores ideo fact frame emo src) ≤ 100) ∧
    bias_index_from_scores (mkScores ideo fact frame emo src) =
      max 0 (min 100 (pyRound ((0.25 : ℚ) * frame + 0.25 * (100 - fact)
        + 0.20 * (100 - src) + 0.15 * emo + 0.15 * ideo))) ∧
    bias_band 29 = "low" ∧ bias_band 30 = "medium" ∧ bias_band 49 = "medium" ∧
    bias_band 50 = "high" ∧ bias_band 69 = "high" ∧
    bias_band 70 = "extremely_high" := by
  have hform : bias_index_from_scores (mkScores ideo fact frame emo src) =
      max 0 (min 100 (pyRound ((0.25 : ℚ) * frame + 0.25 * (100 - fact)
        + 0.20 * (100 - src) + 0.15 * emo + 0.15 * ideo))) := by
    simp +decide [bias_index_from_scores, dictGet, mkScores, List.lookup]
  refine ⟨⟨?_, ?_⟩, hform, by decide, by decide, by decide, by decide,
    by decide, by decide⟩
  · rw [hform]; omega
  · rw [hform]; omega

/-- Claim C5: `_norm` zeroes the span of a record with `end < start` or a
span wider than 2000 while keeping its (stripped) text, and keeps the span
of every other record. -/
theorem C5_norm_span (h : RawH) :
    ((h.endp < h.start ∨ h.endp - h.start > 2000) →
      (norm h).start = 0 ∧ (norm h).endp = 0 ∧
      (norm h).text = strip h.text) ∧
    (¬(h.endp < h.start ∨ h.endp - h.start > 2000) →
      (norm h).start = h.start ∧ (norm h).endp = h.endp ∧
      (norm h).text = strip h.text) := by
  constructor <;> intro hb <;> simp [norm, hb]

/-- Claim C5, witness: a record with `end < start` is zeroed, one with a
valid narrow span is kept. -/
theorem C5_norm_span_witness :
    ((norm ⟨"framing_choices", "bad".toList, 5, 3, [], 1/2⟩).start = 0 ∧
      (norm ⟨"framing_choices", "bad".toList, 5, 3, [], 1/2⟩).endp = 0 ∧
      (norm ⟨"framing_choices", "bad".toList, 5, 3, [], 1/2⟩).text =
        strip "bad".toList) ∧
    ((norm ⟨"framing_choices", "ok".toList, 2, 7, [], 1/2⟩).start = 2 ∧
      (norm ⟨"framing_choices", "ok".toList, 2, 7, [], 1/2⟩).endp = 7 ∧
      (norm ⟨"framing_choices", "ok".toList, 2, 7, [], 1/2⟩).text =
        strip "ok".toList) :=
  ⟨(C5_norm_span ⟨"framing_choices", "bad".toList, 5, 3, [], 1/2⟩).1
      (by left; decide),
    (C5_norm_span ⟨"framing_choices", "ok".toList, 2, 7, [], 1/2⟩).2
      (by push_neg; exact ⟨by decide, by decide⟩)⟩

/-- Claim C2, counterexample: clustering the three spec articles at
threshold 0.35 yields three clusters, not two — the claimed merge of
articles 1 and 2 does not happen. -/
theorem C2_two_clusters_cex :
    (clusterBuckets cexArts 0.35).length = 3 ∧
    (clusterBuckets cexArts 0.35).length ≠ 2 := by
  have h : (clusterBuckets cexArts 0.35).length = 3 := by
    norm_num +decide [clusterBuckets, place, sim, tokensOf, dedupKeep,
      alnumRuns, runsGo, STOPWORDS, lowerL, interCard, unionL, cexArts,
      List.foldl]
  exact ⟨h, by rw [h]; decide⟩

/-- Claim C2 (amended): at threshold 0.35 the three spec articles produce
three singleton clusters, with member ids 3, 2 and 1 in creation order —
the senate/climate token overlap is Jaccard 1/3, which is below 0.35. -/
theorem C2_three_singletons :
    (clusterBuckets cexArts 0.35).map Bucket.ids = [[3], [2], [1]] ∧
    sim (tokensOf "Senate passes climate bill".toList)
        (tokensOf "Senate approves climate legislation".toList) = 1/3 ∧
    ((1 : ℚ)/3 < 0.35) := by
  refine ⟨?_, ?_, by norm_num⟩
  · norm_num +decide [clusterBuckets, place, sim, tokensOf, dedupKeep,
      alnumRuns, runsGo, STOPWORDS, lowerL, interCard, unionL, cexArts,
      List.foldl]
  · norm_num +decide [sim, tokensOf, dedupKeep, alnumRuns, runsGo,
      STOPWORDS, lowerL, interCard, unionL]

theorem pairNe_symm {a b : MHL} (h : pairNe a b) : pairNe b a := by
  intro hc
  exact h ⟨hc.1.symm, hc.2.symm⟩

/-- Structure of the pattern-merge loop: it only appends, every appended
entry has non-empty text and a `(dimension, text)` pair absent from the
initial accumulator, and the appended entries are pairwise distinct. -/
theorem mergePattern_append (phs : List PH) :
    ∀ acc : List MHL, ∃ extra,
      mergePattern acc phs = acc ++ extra ∧
      (∀ e ∈ extra, e.text ≠ [] ∧ ∀ m ∈ acc, pairNe e m) ∧
      extra.Pairwise pairNe := by
  induction phs with
  | nil =>
      intro acc
      exact ⟨[], by simp [mergePattern], by simp, List.Pairwise.nil⟩
  | cons h rest ih =>
      intro acc
      have hstep : mergePattern acc (h :: rest) =
          mergePattern (mergeStepF acc h) rest := rfl
      by_cases hc : (h.data.text.isEmpty
          || acc.any (fun m => m.dimension == h.dimension
              && m.text == h.data.text)) = true
      · have hskip : mergeStepF acc h = acc := by simp [mergeStepF, hc]
        obtain ⟨extra, he, hp, hw⟩ := ih acc
        exact ⟨extra, by rw [hstep, hskip, he], hp, hw⟩
      · set e : MHL := ⟨h.dimension, h.data.text, h.data.start, h.data.endp,
          strip h.data.reason, h.data.confidence⟩ with hedef
        have hadd : mergeStepF acc h = acc ++ [e] := by
          simp only [mergeStepF, hc]
          simp
        have hcc := hc
        simp only [Bool.or_eq_true, not_or, Bool.not_eq_true] at hcc
        obtain ⟨htext, hany⟩ := hcc
        have hnotin : ∀ m ∈ acc, pairNe e m := by
          intro m hm hcon
          have := List.any_eq_false.mp hany m hm
          simp only [Bool.and_eq_true, beq_iff_eq, not_and] at this
          exact this hcon.1.symm hcon.2.symm
        obtain ⟨extra, he, hp, hw⟩ := ih (acc ++ [e])
        refine ⟨e :: extra, ?_, ?_, ?_⟩
        · rw [hstep, hadd, he]
          simp
        · intro x hx
          rcases List.mem_cons.mp hx with hx | hx
          · subst hx
            refine ⟨?_, hnotin⟩
            intro hnil
            apply absurd htext
            simp only [hedef] at hnil
            simp [hnil]
          · obtain ⟨hxt, hxp⟩ := hp x hx
            exact ⟨hxt, fun m hm => hxp m (List.mem_append_left _ hm)⟩
        · refine List.Pairwise.cons ?_ hw
          intro x hx
          exact pairNe_symm ((hp x hx).2 e (by simp))

/-- Claim C4 (amended): after the cap the merged list has at most 20
entries; every surviving model-produced entry has non-empty stripped text
free of the leakage marker; the pattern-merge phase only appends entries
with non-empty text whose `(dimension, text)` pair collides neither with a
model-produced entry nor with another appended entry. (Duplicates already
present among the model-produced entries, and empty-after-trim or
marker-bearing texts arriving in the pattern list, are not filtered.) -/
theorem C4_merge_cap_dedup (raws : List RawH) (phs : List PH)
    (summary : List Char) :
    (mergeAll raws phs summary).length ≤ 20 ∧
    (∀ m ∈ mergeStep1 raws, m.text ≠ [] ∧
      containsL marker (lowerL m.text) = false) ∧
    ∃ extra, mergePattern (mergeStep1 raws) phs = mergeStep1 raws ++ extra ∧
      (∀ e ∈ extra, e.text ≠ [] ∧ ∀ m ∈ mergeStep1 raws, pairNe e m) ∧
      extra.Pairwise pairNe := by
  refine ⟨List.length_take_le _ _, ?_, mergePattern_append phs _⟩
  intro m hm
  have := List.of_mem_filter hm
  simp only [Bool.and_eq_true, Bool.not_eq_true', Bool.not_eq_true] at this
  exact ⟨fun hnil => by simp [hnil] at this, this.2⟩

/-- Claim C4, witness for the amended statement: a concrete run with one
model highlight and one colliding plus one fresh pattern highlight. -/
theorem C4_merge_cap_dedup_witness :
    (mergeAll w4raws w4phs []).length ≤ 20 ∧
    (w4m.text ≠ [] ∧ containsL marker (lowerL w4m.text) = false) := by
  have h := C4_merge_cap_dedup w4raws w4phs []
  have hmem : w4m ∈ mergeStep1 w4raws := List.Mem.head _
  exact ⟨h.1, h.2.1 w4m hmem⟩

/-- Claim C4, counterexample: a duplicated model-produced highlight
survives dedup (the seen-set is only consulted for pattern entries), a
whitespace-only pattern text and a marker-bearing pattern text are both
emitted — so the emitted list can contain a repeated `(dimension, text)`
pair, an entry whose trimmed text is empty, and an entry containing
"return only json". -/
theorem C4_duplicates_cex :
    (mergeAll cex4raws cex4phs []).length = 4 ∧
    ((mergeAll cex4raws cex4phs []).getD 0 dMHL).dimension =
      ((mergeAll cex4raws cex4phs []).getD 1 dMHL).dimension ∧
    ((mergeAll cex4raws cex4phs []).getD 0 dMHL).text =
      ((mergeAll cex4raws cex4phs []).getD 1 dMHL).text ∧
    strip ((mergeAll cex4raws cex4phs []).getD 2 dMHL).text = [] ∧
    containsL marker
      (lowerL ((mergeAll cex4raws cex4phs []).getD 3 dMHL).text) = true := by
  exact ⟨by decide, by decide, by decide, by decide, by decide⟩

/-- Claim C6: when the model-produced and pattern-produced lists are empty
after filtering and a non-empty summary has at least two sentences of at
least 8 words, exactly two highlights are synthesized — `framing_choices`
then `emotional_tone`, confidence 0.6, span `(0,0)`; with exactly one
qualifying sentence, exactly one such highlight. -/
theorem C6_synth_fallback (raws : List RawH) (phs : List PH)
    (summary : List Char)
    (h1 : mergeStep1 raws = []) (h2 : mergePattern [] phs = [])
    (hsum : summary ≠ []) :
    (2 ≤ (qualSents summary).length →
      mergeAll raws phs summary =
        [⟨"framing_choices", ((qualSents summary).getD 0 []).take 240, 0, 0,
          "Representative sentence extracted as fallback.".toList, 0.6⟩,
         ⟨"emotional_tone", ((qualSents summary).getD 1 []).take 240, 0, 0,
          "Representative sentence extracted as fallback.".toList, 0.6⟩]) ∧
    ((qualSents summary).length = 1 →
      mergeAll raws phs summary =
        [⟨"framing_choices", ((qualSents summary).getD 0 []).take 240, 0, 0,
          "Representative sentence extracted as fallback.".toList, 0.6⟩]) := by
  have hse : summary.isEmpty = false := by
    cases summary with
    | nil => exact absurd rfl hsum
    | cons c cs => rfl
  have hall : mergeAll raws phs summary = (synth summary).take 20 := by
    simp [mergeAll, h1, h2, hse]
  constructor
  · intro hlen
    rcases hq : qualSents summary with _ | ⟨s0, tl⟩
    · rw [hq] at hlen
      simp at hlen
    · rcases tl with _ | ⟨s1, rest⟩
      · rw [hq] at hlen
        simp at hlen
      · rw [hall]
        simp [synth, hq, List.enum, List.enumFrom, List.getD]
  · intro hlen
    rcases hq : qualSents summary with _ | ⟨s0, tl⟩
    · rw [hq] at hlen
      simp at hlen
    · rcases tl with _ | ⟨s1, rest⟩
      · rw [hall]
        simp [synth, hq, List.enum, List.enumFrom, List.getD]
      · rw [hq] at hlen
        simp at hlen

/-- Claim C6, witness: empty model and pattern lists with a two-sentence
summary of 8-word sentences synthesize exactly the two highlights. -/
theorem C6_synth_fallback_witness :
    mergeAll [] [] w6sum =
      [⟨"framing_choices", ((qualSents w6sum).getD 0 []).take 240, 0, 0,
        "Representative sentence extracted as fallback.".toList, 0.6⟩,
       ⟨"emotional_tone", ((qualSents w6sum).getD 1 []).take 240, 0, 0,
        "Representative sentence extracted as fallback.".toList, 0.6⟩] :=
  (C6_synth_fallback [] [] w6sum rfl rfl (by decide)).1 (by decide)

/-- Every element surviving `uniqGo` has a host that is non-empty and not
among the already-seen hosts. -/
theorem uniqGo_mem : ∀ (items : List Source) (seen : List (List Char))
    (s : Source), s ∈ uniqGo items seen →
    hostOf s ≠ [] ∧ hostOf s ∉ seen := by
  intro items
  induction items with
  | nil => intro seen s hs; simp [uniqGo] at hs
  | cons it rest ih =>
      intro seen s hs
      by_cases hcp : hostOf it = [] ∨ hostOf it ∈ seen
      · rw [show uniqGo (it :: rest) seen = uniqGo rest seen by
          simp [uniqGo, hcp]] at hs
        exact ih seen s hs
      · rw [show uniqGo (it :: rest) seen =
            it :: uniqGo rest (hostOf it :: seen) by
          simp [uniqGo, hcp]] at hs
        obtain ⟨hne, hnm⟩ := not_or.mp hcp
        rcases List.mem_cons.mp hs with hs | hs
        · subst hs
          exact ⟨hne, hnm⟩
        · have := ih (hostOf it :: seen) s hs
          exact ⟨this.1, fun hm => this.2 (List.mem_cons_of_mem _ hm)⟩

/-- `uniqGo` output has pairwise-distinct hosts. -/
theorem uniqGo_pairwise : ∀ (items : List Source) (seen : List (List Char)),
    (uniqGo items seen).Pairwise hostNe := by
  intro items
  induction items with
  | nil => intro seen; simp [uniqGo]
  | cons it rest ih =>
      intro seen
      by_cases hcp : hostOf it = [] ∨ hostOf it ∈ seen
      · rw [show uniqGo (it :: rest) seen = uniqGo rest seen by
          simp [uniqGo, hcp]]
        exact ih seen
      · rw [show uniqGo (it :: rest) seen =
            it :: uniqGo rest (hostOf it :: seen) by
          simp [uniqGo, hcp]]
        refine List.Pairwise.cons ?_ (ih _)
        intro s hs
        have := (uniqGo_mem rest (hostOf it :: seen) s hs).2
        intro heq
        exact this (heq ▸ List.mem_cons_self _ _)

/-- The per-claim source list always has pairwise-distinct hosts. -/
theorem claimSources_pairwise (cfg : Bool)
    (search : List Char → Option (List RawResult))
    (timeoutOn : List Char → Bool) (q : List Char) :
    (claimSources cfg search timeoutOn q).Pairwise hostNe := by
  unfold claimSources
  split
  · exact List.Pairwise.nil
  · split
    · exact List.Pairwise.nil
    · unfold find_primary_sources
      split
      · exact List.Pairwise.nil
      · exact List.Pairwise.sublist (List.take_sublist _ _)
          (uniqGo_pairwise _ [])

/-- Claim C7: enrichment emits at most 8 claims; every emitted claim has at
most 2 sources with pairwise-distinct network domains; every claim among
the first 8 with non-empty stripped text is emitted — also when its lookup
times out or finds nothing. -/
theorem C7_claim_enrichment (cfg : Bool)
    (search : List Char → Option (List RawResult))
    (timeoutOn : List Char → Bool) (claims : List ClaimRec) :
    (enrich claims (claimSources cfg search timeoutOn)).length ≤ 8 ∧
    (∀ ec ∈ enrich claims (claimSources cfg search timeoutOn),
      ec.sources.length ≤ 2 ∧ ec.sources.Pairwise hostNe) ∧
    (∀ c ∈ claims.take 8, strip c.text ≠ [] →
      ∃ ec ∈ enrich claims (claimSources cfg search timeoutOn),
        ec.text = strip c.text) := by
  refine ⟨?_, ?_, ?_⟩
  · calc (enrich claims (claimSources cfg search timeoutOn)).length
        ≤ (claims.take 8).length := List.length_filterMap_le _ _
      _ ≤ 8 := List.length_take_le _ _
  · intro ec hec
    obtain ⟨c, _, hsome⟩ := List.mem_filterMap.mp hec
    by_cases hq : (strip c.text).isEmpty = true
    · rw [if_pos hq] at hsome
      exact absurd hsome (by simp)
    · rw [if_neg hq] at hsome
      obtain rfl := Option.some.inj hsome
      refine ⟨List.length_take_le _ _, ?_⟩
      exact List.Pairwise.sublist (List.take_sublist _ _)
        (claimSources_pairwise cfg search timeoutOn _)
  · intro c hc hne
    refine ⟨⟨strip c.text, c.rationale, c.confidence,
      (claimSources cfg search timeoutOn (strip c.text)).take 2⟩,
      List.mem_filterMap.mpr ⟨c, hc, ?_⟩, rfl⟩
    rw [if_neg (by simp [hne])]

/-- Claim C7, witness: one concrete claim, a lookup that returns nothing —
the claim is still emitted, with the invariants holding. -/
theorem C7_claim_enrichment_witness :
    (enrich [w7claim] (claimSources false w7search w7timeout)).length ≤ 8 ∧
    ∃ ec ∈ enrich [w7claim] (claimSources false w7search w7timeout),
      ec.text = strip w7claim.text :=
  ⟨(C7_claim_enrichment false w7search w7timeout [w7claim]).1,
    (C7_claim_enrichment false w7search w7timeout [w7claim]).2.2 w7claim
      (List.Mem.head _) (by decide)⟩

/-- Claim C9: when the concurrent gather times out, the pipeline still
produces a report — the scores, summary and highlights come from the
second, sequential invocations of score and summary (each invoked twice in
total), and the claim list degrades to empty. -/
theorem C9_timeout_fallback (b : Backend) (full : Bool) (text : List Char)
    (srcs : List Char → List Source) :
    (analyzePipeline b full .timedOut text srcs).claims = [] ∧
    (analyzePipeline b full .timedOut text srcs).scores =
      (b.scoreCall 1).scores ∧
    (analyzePipeline b full .timedOut text srcs).summary = b.summaryCall 1 ∧
    (analyzePipeline b full .timedOut text srcs).highlights =
      mergeAll (b.scoreCall 1).highlights (extract_highlights text)
        (b.summaryCall 1) ∧
    (gatherWithFallback b full .timedOut).2 = (2, 2) := by
  refine ⟨?_, rfl, rfl, rfl, rfl⟩
  simp [analyzePipeline, gatherWithFallback, runGather]

/-- Claim C8: analyzing "Critics say the policy is shocking." with every
remote backend disabled yields a `framing_choices` highlight whose text is
"critics say" up to case and an `emotional_tone` highlight whose text is
"shocking" up to case. -/
theorem C8_no_backend_highlights :
    ((analyzePipeline (noBackend c8text) false .ok c8text
        (fun _ => [])).highlights.any
      (fun h => h.dimension == "framing_choices"
        && lowerL h.text == "critics say".toList)) = true ∧
    ((analyzePipeline (noBackend c8text) false .ok c8text
        (fun _ => [])).highlights.any
      (fun h => h.dimension == "emotional_tone"
        && lowerL h.text == "shocking".toList)) = true := by
  exact ⟨by decide, by decide⟩

theorem litPre_length : ∀ (a s : List Char), litPre a s = true →
    a.length ≤ s.length := by
  intro a
  induction a with
  | nil => intro s _; simp
  | cons c cs ih =>
      intro s h
      cases s with
      | nil => simp [litPre] at h
      | cons b bs =>
          simp only [litPre, Bool.and_eq_true] at h
          simpa using ih bs h.2

theorem altsMatch_bound : ∀ (alts : List (List Char)) (text : List Char)
    (pos n : Nat), pos < text.length → altsMatch alts text pos = some n →
    pos + n ≤ text.length := by
  intro alts
  induction alts with
  | nil => intro text pos n _ h; simp [altsMatch] at h
  | cons a rest ih =>
      intro text pos n hpos h
      by_cases hc : (litPre a (text.drop pos)
          && boundaryAt text (pos + a.length)) = true
      · rw [show altsMatch (a :: rest) text pos = some a.length by
          simp [altsMatch, hc]] at h
        obtain rfl := Option.some.inj h
        have hlen := litPre_length a (text.drop pos)
          (Bool.and_elim_left hc)
        rw [List.length_drop] at hlen
        omega
      · rw [show altsMatch (a :: rest) text pos = altsMatch rest text pos by
          simp only [altsMatch]
          rw [if_neg (by simpa using hc)]] at h
        exact ih text pos n hpos h

theorem findGo_bounds (alts : List (List Char)) (text : List Char) :
    ∀ (fuel pos : Nat), ∀ p ∈ findGo alts text fuel pos,
    p.1 ≤ p.2 ∧ p.2 ≤ text.length := by
  intro fuel
  induction fuel with
  | zero => intro pos p hp; simp [findGo] at hp
  | succ fuel ih =>
      intro pos p hp
      rw [findGo] at hp
      by_cases hpos : pos < text.length
      · rw [if_pos hpos] at hp
        cases hm : patMatch alts text pos with
        | none => rw [hm] at hp; exact ih _ p hp
        | some n =>
            rw [hm] at hp
            rcases List.mem_cons.mp hp with hp | hp
            · subst hp
              have hb : altsMatch alts text pos = some n := by
                unfold patMatch at hm
                by_cases hbd : boundaryAt text pos = true
                · rwa [if_pos hbd] at hm
                · rw [if_neg hbd] at hm; exact absurd hm (by simp)
              exact ⟨Nat.le_add_right _ _,
                altsMatch_bound alts text pos n hpos hb⟩
            · exact ih _ p hp
      · rw [if_neg hpos] at hp
        simp at hp

/-- Claim C10: every highlight the pattern extractor emits has
`0 ≤ start ≤ end ≤ len(text)`, its text is exactly the corresponding input
slice, its confidence is 0.8 and its dimension one of the four pattern
dimensions; the empty input yields no highlights. -/
theorem C10_extractor_invariants (text : List Char) :
    (∀ h ∈ extract_highlights text,
      0 ≤ h.data.start ∧ h.data.start ≤ h.data.endp ∧
      h.data.endp ≤ (text.length : ℤ) ∧
      h.data.text = slice text h.data.start.toNat h.data.endp.toNat ∧
      h.data.confidence = 0.8 ∧
      h.dimension ∈ ["framing_choices", "emotional_tone",
        "source_transparency", "ideological_stance"]) ∧
    extract_highlights [] = [] := by
  constructor
  · intro h hh
    obtain ⟨p, hp, hmem⟩ := List.mem_flatMap.mp hh
    obtain ⟨se, hse, rfl⟩ := List.mem_map.mp hmem
    have hb := findGo_bounds p.alts text (text.length + 1) 0 se hse
    have hdim : ∀ q ∈ BIAS_PATTERNS, q.dimension ∈
        ["framing_choices", "emotional_tone", "source_transparency",
          "ideological_stance"] := by decide
    dsimp only
    refine ⟨by positivity, by exact_mod_cast hb.1, by exact_mod_cast hb.2,
      ?_, rfl, hdim p hp⟩
    simp [Int.toNat_natCast]
  · rfl

/-- Claim C10, witness: on "shocking now" the extractor's sole highlight
satisfies all the invariants. -/
theorem C10_extractor_invariants_witness :
    0 ≤ w10h.data.start ∧ w10h.data.start ≤ w10h.data.endp ∧
    w10h.data.endp ≤ (w10text.length : ℤ) ∧
    w10h.data.text = slice w10text w10h.data.start.toNat w10h.data.endp.toNat ∧
    w10h.data.confidence = 0.8 ∧
    w10h.dimension ∈ ["framing_choices", "emotional_tone",
      "source_transparency", "ideological_stance"] :=
  (C10_extractor_invariants w10text).1 w10h (List.Mem.head _)

/-- Claim C3, witness: instantiation at all five scores equal to 50. -/
theorem C3_bias_index_value_and_bands_witness :
    (0 ≤ bias_index_from_scores (mkScores 50 50 50 50 50) ∧
      bias_index_from_scores (mkScores 50 50 50 50 50) ≤ 100) ∧
    bias_index_from_scores (mkScores 50 50 50 50 50) =
      max 0 (min 100 (pyRound ((0.25 : ℚ) * 50 + 0.25 * (100 - 50)
        + 0.20 * (100 - 50) + 0.15 * 50 + 0.15 * 50))) ∧
    bias_band 29 = "low" ∧ bias_band 30 = "medium" ∧ bias_band 49 = "medium" ∧
    bias_band 50 = "high" ∧ bias_band 69 = "high" ∧
    bias_band 70 = "extremely_high" :=
  C3_bias_index_value_and_bands 50 50 50 50 50 (by norm_num) (by norm_num)
    (by norm_num) (by norm_num) (by norm_num)

end BiasLab
